import Mathlib

/-!
Shallow embedding of the trip-planner supervisor (src/supervisor/agent_client.py
and src/supervisor/orchestrator.py) together with proofs about its event stream,
conversation-state invariants and error handling.

Modelling conventions:
* The reasoning endpoint (an external LLM service) is opaque; following the
  design note in the spec it is modelled as a deterministic script indexed by
  turn number, producing either a transport failure or a chat message with a
  (possibly empty) list of tool calls whose JSON arguments are already parsed.
* The network behaviour of each specialist HTTP service is modelled by an
  oracle `SpecialistEnv` mapping (agent key, task, context) to the response
  envelope dictionary that `AgentClient.send_task` returns for that call.
* Python dicts with `.get` defaults become structures with `Option` fields
  plus the corresponding `getD` at each use site.
* Python string slicing `s[:n]` is `String.take`, `", ".join` is
  `String.intercalate ", "`.
-/

set_option autoImplicit false

namespace TripPlanner

/-- One step of a `create_plan` argument: `{"agent": ..., "reason": ...}`. -/
structure PlanStep where
  agent : String
  reason : String
deriving DecidableEq, Repr

/-- Parsed JSON arguments of a tool call, i.e. the dict
`json.loads(tc.function.arguments) if tc.function.arguments else {}`,
with the `.get` defaults of orchestrator.py already applied:
`steps = tc_args.get("steps", [])`, `task = tc_args.get("task", "")`,
`context = tc_args.get("context", "")`. -/
structure ToolArgs where
  steps : List PlanStep
  task : String
  context : String
deriving DecidableEq, Repr

/-- A tool call returned by the model: `{"id": tc.id, "function": {"name": ..., "arguments": ...}}`. -/
structure ToolCall where
  id : String
  name : String
  args : ToolArgs
deriving DecidableEq, Repr

/-- The specialist response envelope `{status, result, tools_called}` as the
dict returned by `AgentClient.send_task` (either the parsed `resp.json()` or a
synthesized error dict).  Fields are `Option` because the orchestrator reads
them with `dict.get` and a default; sub-tool-call descriptors are opaque and
modelled as strings. -/
structure Envelope where
  status : Option String
  result : Option String
  tools_called : Option (List String)
deriving DecidableEq, Repr

/-- Outcome of the HTTP POST performed inside `AgentClient.send_task`:
either httpx raised (timeout / transport failure), or a response arrived with
a status code, a body text, and — when the body is valid JSON — its parsed
envelope (`none` models a `resp.json()` decode failure, which raises inside
the `try` block). -/
inductive HttpOutcome where
  | failure (err : String)
  | response (status_code : Nat) (text : String) (body : Option Envelope)
deriving DecidableEq, Repr

/-- `httpx.AsyncClient(verify=False, timeout=120)` — the bounded wait, in the
time units of the transport library. -/
def sendTaskTimeout : Nat := 120

/-- `class AgentClient` of agent_client.py (the URL normalisation
`agent_url.rstrip("/")` happens at construction and is irrelevant here). -/
structure AgentClient where
  agent_url : String
  agent_name : String
deriving DecidableEq, Repr

/-- `AgentClient.send_task` of agent_client.py.  `task`/`context` only shape
the outgoing request body; the behaviour of the network on that request is the
`outcome` argument.  The Python function never raises past this boundary
(`except Exception` around the whole call); in the embedding this is the
totality of the function. -/
def AgentClient.send_task (c : AgentClient) (task context : String)
    (outcome : HttpOutcome) : Envelope :=
  match task, context, outcome with
  | _, _, .failure e =>
      { status := some "error",
        result := some ("Failed to reach " ++ c.agent_name ++ ": " ++ e),
        tools_called := some [] }
  | _, _, .response code text body =>
      if code ≠ 200 then
        { status := some "error",
          result := some ("HTTP " ++ toString code ++ ": " ++ text.take 200),
          tools_called := some [] }
      else
        match body with
        | some env => env
        | none =>
            { status := some "error",
              result := some ("Failed to reach " ++ c.agent_name ++ ": JSON decode error"),
              tools_called := some [] }

/-- Keys of the `agents` registry of agent_client.py (built from
`AGENT_URLS`, which always holds these five entries). -/
def agentRegistryKeys : List String :=
  ["weather", "packing", "activities", "budget", "transport"]

/-- `TOOL_TO_AGENT` of orchestrator.py: map tool names to agent keys. -/
def TOOL_TO_AGENT : String → Option String
  | "call_weather_agent" => some "weather"
  | "call_packing_agent" => some "packing"
  | "call_activities_agent" => some "activities"
  | "call_budget_agent" => some "budget"
  | "call_transport_agent" => some "transport"
  | _ => none

/-- `AGENT_DISPLAY_NAMES` of orchestrator.py.  The orchestrator only indexes
it with keys produced by `TOOL_TO_AGENT`, so the catch-all is unreachable
there. -/
def AGENT_DISPLAY_NAMES : String → String
  | "weather" => "Weather Agent"
  | "packing" => "Packing Agent"
  | "activities" => "Activities Agent"
  | "budget" => "Budget Agent"
  | "transport" => "Transport Agent"
  | _ => ""

/-- A message of the conversation list `messages` built by `orchestrate`. -/
inductive Message where
  | system (content : String)
  | user (content : String)
  | assistant (content : Option String) (tool_calls : List ToolCall)
  | tool (tool_call_id : String) (content : String)
deriving DecidableEq, Repr

/-- One SSE event yielded by `orchestrate` (the dicts of orchestrator.py,
field for field). -/
inductive Event where
  | status (message : String)
  | plan (steps : List PlanStep) (agents : List String)
  | plan_update (agents : List String) (added : String) (reason : String)
  | round_start (agents : List String) (parallel : Bool)
  | agent_start (agent : String) (task : String)
  | agent_result (agent : String) (result : String) (tools_called : List String) (is_error : Bool)
  | synthesis_start
  | response (text : String)
  | error (err : String)
  | done
deriving DecidableEq, Repr

/-- One response of the reasoning endpoint per turn: either the
`client.chat.completions.create` call raised, or it returned a message with
optional text content and a list of tool calls (`None`/empty list of tool
calls both mean "no tool calls" and are modelled as `[]`). -/
inductive ModelResponse where
  | failure (err : String)
  | message (content : Option String) (tool_calls : List ToolCall)
deriving DecidableEq, Repr

/-- The reasoning endpoint as a deterministic per-turn script (the
deterministic test double for the opaque model suggested in spec §9). -/
def ModelScript : Type := Nat → ModelResponse

/-- The behaviour of the specialist services: agent key, task, context ↦ envelope
returned by that `send_task` call. -/
def SpecialistEnv : Type := String → String → String → Envelope

/-- `msg.content or None` of the assistant-message construction: a falsy
(empty) content becomes `None`. -/
def contentOrNone : Option String → Option String
  | some "" => none
  | c => c

/-- `tc.function.name == "create_plan"`. -/
def isPlanCall (tc : ToolCall) : Bool := tc.name == "create_plan"

/-- `tc.function.name in TOOL_TO_AGENT`. -/
def isRegistryCall (tc : ToolCall) : Bool := (TOOL_TO_AGENT tc.name).isSome

/-- The `plan_calls` bucket of the categorisation loop. -/
def planCalls (tcs : List ToolCall) : List ToolCall := tcs.filter isPlanCall

/-- The `agent_calls` bucket (the `elif` arm: not a plan call, name in
`TOOL_TO_AGENT`). -/
def agentCalls (tcs : List ToolCall) : List ToolCall :=
  tcs.filter (fun tc => !isPlanCall tc && isRegistryCall tc)

/-- The `unknown_calls` bucket (the `else` arm). -/
def unknownCalls (tcs : List ToolCall) : List ToolCall :=
  tcs.filter (fun tc => !isPlanCall tc && !isRegistryCall tc)

/-- `agent_key = TOOL_TO_AGENT[tc.function.name]` (total on agent calls). -/
def agentKey (tc : ToolCall) : String := (TOOL_TO_AGENT tc.name).getD ""

/-- The tool-message content acknowledging a plan (line 230). -/
def planConfirmContent (agents : List String) : String :=
  "Plan confirmed. Proceeding with agents: " ++ String.intercalate ", " agents ++
  ". Remember to call independent agents in parallel by issuing multiple tool calls in a single response."

/-- Lines 217–231: the `for tc in plan_calls` loop.  Threads `planned_agents`
(each plan call overwrites it with its own step list), returning the final
`planned_agents`, the yielded `plan` events, and the appended tool messages. -/
def processPlanCalls (planned : List String) :
    List ToolCall → List String × List Event × List Message
  | [] => (planned, [], [])
  | tc :: rest =>
      let steps := tc.args.steps
      let planned1 := steps.map PlanStep.agent
      let ev := Event.plan steps planned1
      let msg := Message.tool tc.id (planConfirmContent planned1)
      let rec_ := processPlanCalls planned1 rest
      (rec_.1, ev :: rec_.2.1, msg :: rec_.2.2)

/-- Lines 234–239: the `for tc in unknown_calls` loop. -/
def unknownMsgs (tcs : List ToolCall) : List Message :=
  tcs.map fun tc => Message.tool tc.id ("Unknown tool: " ++ tc.name)

/-- Lines 245–256: the `for tc in agent_calls` loop collecting `agent_keys`
and extending `planned_agents` (with a `plan_update` event) for unplanned
keys.  Returns final `planned_agents`, the `agent_keys` list, and the
`plan_update` events in emission order. -/
def processPlanUpdates (planned : List String) :
    List ToolCall → List String × List String × List Event
  | [] => (planned, [], [])
  | tc :: rest =>
      let k := agentKey tc
      let step :=
        if planned.contains k then (planned, ([] : List Event))
        else (planned ++ [k],
          [Event.plan_update (planned ++ [k]) k
            ("Supervisor decided to also consult " ++ AGENT_DISPLAY_NAMES k)])
      let rec_ := processPlanUpdates step.1 rest
      (rec_.1, k :: rec_.2.1, step.2 ++ rec_.2.2)

/-- Lines 268–276: one `agent_start` event per agent call, task truncated to
150 characters. -/
def startEvents (tcs : List ToolCall) : List Event :=
  tcs.map fun tc => Event.agent_start (agentKey tc) (tc.args.task.take 150)

/-- `res.get("status") == "error"` — how the orchestrator derives the error
flag from an envelope (both the parallel `_call_agent` helper and the
sequential branch use exactly this test). -/
def envIsError (res : Envelope) : Bool := res.status == some "error"

/-- The tuple produced for one agent call (the body of `_call_agent`, which
the sequential single-call branch replicates verbatim): agent key, result
text, error flag, sub-tool-call list. -/
structure CallOutcome where
  tc : ToolCall
  key : String
  result_text : String
  is_error : Bool
  tools_called : List String
deriving DecidableEq, Repr

/-- Lines 282–297 (and 323–332): evaluate one agent call against the
specialist environment.  `agents.get(ak)` misses only for keys outside the
registry (unreachable for `TOOL_TO_AGENT` images, kept for fidelity). -/
def callAgent (env : SpecialistEnv) (tc : ToolCall) : CallOutcome :=
  let ak := agentKey tc
  if agentRegistryKeys.contains ak then
    let res := env ak tc.args.task tc.args.context
    { tc := tc, key := ak,
      result_text := (res.result).getD "No result",
      is_error := envIsError res,
      tools_called := (res.tools_called).getD [] }
  else
    { tc := tc, key := ak,
      result_text := "Agent \x27" ++ ak ++ "\x27 not available",
      is_error := true,
      tools_called := [] }

/-- Lines 301–309 / 335–341: the `agent_result` event for one completed
call (`tools_called if not is_error else []`). -/
def resultEvent (o : CallOutcome) : Event :=
  Event.agent_result o.key o.result_text
    (if o.is_error then [] else o.tools_called) o.is_error

/-- Lines 310–314 / 342–346: the tool message folded back for one completed
call (`"ERROR: "` prefix when the error flag is set). -/
def resultMsg (o : CallOutcome) : Message :=
  Message.tool o.tc.id
    (if o.is_error then "ERROR: " ++ o.result_text else o.result_text)

/-- Outcome of one iteration of the `for turn in range(max_turns)` body:
either the generator returns (final answer or model failure), or the loop
continues with new events, new conversation messages, and updated
`planned_agents` / `completed_agents`. -/
inductive StepResult where
  | halt (events : List Event)
  | next (events : List Event) (msgs : List Message)
      (planned completed : List String)
deriving DecidableEq, Repr

/-- The body of the orchestration loop (orchestrator.py lines 179–348) for
one turn, given the response of the reasoning endpoint for that turn. -/
def stepTurn (env : SpecialistEnv) (planned completed : List String) :
    ModelResponse → StepResult
  | .failure e => .halt [Event.error ("Model API error: " ++ e)]
  | .message content tcs =>
    match tcs with
    | [] =>
        -- final text response from the model
        .halt [Event.synthesis_start, Event.response (content.getD "")]
    | _ :: _ =>
        let assistantMsg := Message.assistant (contentOrNone content) tcs
        let pcs := planCalls tcs
        let acs := agentCalls tcs
        let ucs := unknownCalls tcs
        let planStep := processPlanCalls planned pcs
        let uMsgs := unknownMsgs ucs
        if acs.isEmpty then
          -- `if not agent_calls: continue`
          .next planStep.2.1 (assistantMsg :: (planStep.2.2 ++ uMsgs))
            planStep.1 completed
        else
          let upd := processPlanUpdates planStep.1 acs
          let isPar := decide (acs.length > 1)
          let outs := acs.map (callAgent env)
          .next
            (planStep.2.1 ++ upd.2.2 ++
              [Event.round_start upd.2.1 isPar] ++
              startEvents acs ++ outs.map resultEvent)
            (assistantMsg :: (planStep.2.2 ++ uMsgs ++ outs.map resultMsg))
            upd.1 (completed ++ upd.2.1)

/-- `max_turns = 15`. -/
def max_turns : Nat := 15

/-- Line 357: the message of the turn-bound error event. -/
def maxTurnsErrorText : String :=
  "Supervisor reached maximum turns without completing."

/-- The `for turn in range(max_turns)` loop, returning the events yielded and
the conversation messages appended from turn `turn` on, with `fuel`
iterations remaining. -/
def runLoop (env : SpecialistEnv) (script : ModelScript) :
    Nat → Nat → List String → List String → List Event × List Message
  | _, 0, _, _ => ([Event.error maxTurnsErrorText], [])
  | turn, fuel + 1, planned, completed =>
    match stepTurn env planned completed (script turn) with
    | .halt evs => (evs, [])
    | .next evs msgs planned1 completed1 =>
        let rest := runLoop env script (turn + 1) fuel planned1 completed1
        (evs ++ rest.1, msgs ++ rest.2)

/-- The system prompt.  Only its first sentence is reproduced: the string is
passed verbatim to the external reasoning endpoint and never inspected by
the orchestration logic, so its exact text is immaterial to every theorem
below. -/
def SUPERVISOR_SYSTEM_PROMPT : String :=
  "You are a trip planning supervisor that coordinates specialized agents to help users with travel questions."

/-- `orchestrate(user_message)` of orchestrator.py: the initial `status`
event, the seeded conversation, then the turn loop.  Returns the full event
stream and the final conversation message list. -/
def orchestrate (env : SpecialistEnv) (script : ModelScript)
    (user_message : String) : List Event × List Message :=
  let body := runLoop env script 0 max_turns [] []
  (Event.status "Planning which agents to use..." :: body.1,
   Message.system SUPERVISOR_SYSTEM_PROMPT :: Message.user user_message :: body.2)

/-- The `chat` handler of src/supervisor/server.py (lines 22–31): its
`event_stream` generator forwards every event produced by
`orchestrate(req.message)` and then yields one final done event
(`data: {"type": "done"}`).  The SSE framing (`data: <json>` lines) is
transport serialisation and is not modelled; the event sequence delivered to
the caller is the orchestration events followed by exactly one `done`. -/
def chat (env : SpecialistEnv) (script : ModelScript)
    (user_message : String) : List Event :=
  (orchestrate env script user_message).1 ++ [Event.done]

/-! ### Classifiers for events and messages -/

def isToolMsg : Message → Bool
  | .tool _ _ => true
  | _ => false

def isAssistantMsg : Message → Bool
  | .assistant _ _ => true
  | _ => false

def isDoneEvent : Event → Bool
  | .done => true
  | _ => false

def isResponseEvent : Event → Bool
  | .response _ => true
  | _ => false

def isErrorEvent : Event → Bool
  | .error _ => true
  | _ => false

/-- A `response` or `error` event — the only two that may immediately precede
the stream terminator. -/
def isTerminalEvent (e : Event) : Bool := isResponseEvent e || isErrorEvent e

def isRoundStartEvent : Event → Bool
  | .round_start _ _ => true
  | _ => false

def isAgentStartEvent : Event → Bool
  | .agent_start _ _ => true
  | _ => false

def isAgentResultEvent : Event → Bool
  | .agent_result _ _ _ _ => true
  | _ => false

def isPlanUpdateEvent : Event → Bool
  | .plan_update _ _ _ => true
  | _ => false

/-! ### Structural lemmas about the loop bodies -/

lemma processPlanCalls_events (pcs : List ToolCall) : ∀ planned,
    (processPlanCalls planned pcs).2.1 =
      pcs.map (fun tc => Event.plan tc.args.steps (tc.args.steps.map PlanStep.agent)) := by
  induction pcs with
  | nil => intro planned; rfl
  | cons tc rest ih => intro planned; simp [processPlanCalls, ih]

lemma processPlanCalls_msgs (pcs : List ToolCall) : ∀ planned,
    (processPlanCalls planned pcs).2.2 =
      pcs.map (fun tc =>
        Message.tool tc.id (planConfirmContent (tc.args.steps.map PlanStep.agent))) := by
  induction pcs with
  | nil => intro planned; rfl
  | cons tc rest ih => intro planned; simp [processPlanCalls, ih]

lemma processPlanCalls_planned_of_ne_nil (pcs : List ToolCall) : ∀ planned (h : pcs ≠ []),
    (processPlanCalls planned pcs).1 = ((pcs.getLast h).args.steps).map PlanStep.agent := by
  induction pcs with
  | nil => intro _ h; exact absurd rfl h
  | cons tc rest ih =>
      intro planned h
      cases rest with
      | nil => rfl
      | cons tc2 rest2 =>
          rw [List.getLast_cons (by simp)]
          simpa [processPlanCalls] using ih (tc.args.steps.map PlanStep.agent) (by simp)

lemma processPlanUpdates_keys (acs : List ToolCall) : ∀ planned,
    (processPlanUpdates planned acs).2.1 = acs.map agentKey := by
  induction acs with
  | nil => intro planned; rfl
  | cons tc rest ih => intro planned; simp [processPlanUpdates, ih]

/-- Unfolding lemma for `processPlanUpdates` with the guard phrased through
list membership. -/
lemma processPlanUpdates_cons (planned : List String) (tc : ToolCall) (rest : List ToolCall) :
    processPlanUpdates planned (tc :: rest) =
      if agentKey tc ∈ planned then
        ((processPlanUpdates planned rest).1,
         agentKey tc :: (processPlanUpdates planned rest).2.1,
         (processPlanUpdates planned rest).2.2)
      else
        ((processPlanUpdates (planned ++ [agentKey tc]) rest).1,
         agentKey tc :: (processPlanUpdates (planned ++ [agentKey tc]) rest).2.1,
         Event.plan_update (planned ++ [agentKey tc]) (agentKey tc)
             ("Supervisor decided to also consult " ++ AGENT_DISPLAY_NAMES (agentKey tc)) ::
           (processPlanUpdates (planned ++ [agentKey tc]) rest).2.2) := by
  by_cases hc : agentKey tc ∈ planned <;> simp [processPlanUpdates, hc]

lemma processPlanUpdates_planned_mem (acs : List ToolCall) : ∀ planned k,
    k ∈ (processPlanUpdates planned acs).1 ↔ k ∈ planned ∨ k ∈ acs.map agentKey := by
  induction acs with
  | nil => intro planned k; simp [processPlanUpdates]
  | cons tc rest ih =>
      intro planned k
      rw [processPlanUpdates_cons]
      by_cases hc : agentKey tc ∈ planned
      · simp only [hc, if_pos, List.map_cons, List.mem_cons]
        rw [ih]
        constructor
        · rintro (h | h)
          · exact Or.inl h
          · exact Or.inr (Or.inr h)
        · rintro (h | h | h)
          · exact Or.inl h
          · exact Or.inl (h ▸ hc)
          · exact Or.inr h
      · simp only [hc, if_neg, not_false_iff, List.map_cons, List.mem_cons]
        rw [ih]
        simp only [List.mem_append, List.mem_singleton]
        tauto

lemma processPlanUpdates_events_shape (acs : List ToolCall) : ∀ planned,
    ∀ e ∈ (processPlanUpdates planned acs).2.2, ∃ ag k r, e = Event.plan_update ag k r := by
  induction acs with
  | nil => intro planned e he; simp [processPlanUpdates] at he
  | cons tc rest ih =>
      intro planned e he
      rw [processPlanUpdates_cons] at he
      by_cases hc : agentKey tc ∈ planned
      · simp only [hc, if_pos] at he
        exact ih _ e he
      · simp only [hc, if_neg, not_false_iff, List.mem_cons] at he
        rcases he with h | h
        · exact ⟨_, _, _, h⟩
        · exact ih _ e h

lemma processPlanUpdates_events_mem (acs : List ToolCall) : ∀ planned ag k r,
    Event.plan_update ag k r ∈ (processPlanUpdates planned acs).2.2 →
      r = "Supervisor decided to also consult " ++ AGENT_DISPLAY_NAMES k ∧
      ag.getLast? = some k ∧ k ∈ acs.map agentKey ∧ k ∉ planned := by
  induction acs with
  | nil => intro planned ag k r h; simp [processPlanUpdates] at h
  | cons tc rest ih =>
      intro planned ag k r h
      rw [processPlanUpdates_cons] at h
      by_cases hc : agentKey tc ∈ planned
      · simp only [hc, if_pos] at h
        obtain ⟨hr, hag, hmem, hnot⟩ := ih _ ag k r h
        exact ⟨hr, hag, by simp [hmem], hnot⟩
      · simp only [hc, if_neg, not_false_iff, List.mem_cons] at h
        rcases h with h | h
        · obtain ⟨hag, hk, hr⟩ := Event.plan_update.inj h.symm
          subst hag; subst hk; subst hr
          exact ⟨rfl, List.getLast?_concat _, by simp, hc⟩
        · obtain ⟨hr, hag, hmem, hnot⟩ := ih _ ag k r h
          have hkp : k ∉ planned := fun hk => hnot (by simp [hk])
          exact ⟨hr, hag, by simp [hmem], hkp⟩

lemma processPlanUpdates_events_exists (acs : List ToolCall) : ∀ planned k,
    k ∈ acs.map agentKey → k ∉ planned →
      ∃ ag r, Event.plan_update ag k r ∈ (processPlanUpdates planned acs).2.2 := by
  induction acs with
  | nil => intro planned k h _; simp at h
  | cons tc rest ih =>
      intro planned k hk hnot
      rw [processPlanUpdates_cons]
      have hk' : k = agentKey tc ∨ k ∈ rest.map agentKey := by
        rw [List.map_cons, List.mem_cons] at hk; exact hk
      rcases hk' with h | h
      · subst h
        refine ⟨planned ++ [agentKey tc],
          "Supervisor decided to also consult " ++ AGENT_DISPLAY_NAMES (agentKey tc), ?_⟩
        simp [hnot]
      · by_cases hc : agentKey tc ∈ planned
        · obtain ⟨ag, r, hm⟩ := ih planned k h hnot
          exact ⟨ag, r, by simp [hc, hm]⟩
        · by_cases hkk : k = agentKey tc
          · subst hkk
            refine ⟨planned ++ [agentKey tc],
              "Supervisor decided to also consult " ++ AGENT_DISPLAY_NAMES (agentKey tc), ?_⟩
            simp [hc]
          · obtain ⟨ag, r, hm⟩ := ih (planned ++ [agentKey tc]) k h
              (by simp [hnot, hkk])
            exact ⟨ag, r, by simp [hc, hm]⟩

lemma callAgent_tc (env : SpecialistEnv) (tc : ToolCall) : (callAgent env tc).tc = tc := by
  by_cases h : agentKey tc ∈ agentRegistryKeys <;> simp [callAgent, h]

lemma resultMsg_callAgent (env : SpecialistEnv) (tc : ToolCall) :
    resultMsg (callAgent env tc) =
      Message.tool tc.id (if (callAgent env tc).is_error
        then "ERROR: " ++ (callAgent env tc).result_text
        else (callAgent env tc).result_text) := by
  rw [resultMsg, callAgent_tc]

/-! ### The ActionRequest/ActionResult pairing invariant (spec §3, §8) -/

/-- Scanner for the pairing invariant over a conversation list.  `expected`
computes, from the tool calls of an assistant message, the id sequence that the
tool messages following it must answer, in order; `pending` is the
not-yet-answered suffix of the ids of the current assistant message.  The scanner
accepts exactly when the tool calls of every assistant message are each answered
by exactly one tool message, in the order `expected` prescribes, before the
next assistant message (or the end of the conversation). -/
def pairedAux (expected : List ToolCall → List String) :
    List String → List Message → Bool
  | pending, [] => pending.isEmpty
  | pending, .assistant _ tcs :: rest =>
      pending.isEmpty && pairedAux expected (expected tcs) rest
  | pending, .tool i _ :: rest =>
      match pending with
      | [] => false
      | e :: pending1 => (i == e) && pairedAux expected pending1 rest
  | pending, .system _ :: rest => pairedAux expected pending rest
  | pending, .user _ :: rest => pairedAux expected pending rest

def paired (expected : List ToolCall → List String) (msgs : List Message) : Bool :=
  pairedAux expected [] msgs

/-- The order the claim states: results in the order the requests appear in
the assistant message, across categories. -/
def batchOrderIds (tcs : List ToolCall) : List String := tcs.map ToolCall.id

/-- The order the code appends: plan answers first, then unknown-action
answers, then specialist answers, each group preserving batch order. -/
def groupedOrderIds (tcs : List ToolCall) : List String :=
  (planCalls tcs).map ToolCall.id ++ (unknownCalls tcs).map ToolCall.id ++
    (agentCalls tcs).map ToolCall.id

lemma pairedAux_consume (expected : List ToolCall → List String)
    (f : ToolCall → String) (tcs : List ToolCall) :
    ∀ (pending2 : List String) (rest : List Message),
      pairedAux expected (tcs.map ToolCall.id ++ pending2)
        ((tcs.map fun tc => Message.tool tc.id (f tc)) ++ rest) =
      pairedAux expected pending2 rest := by
  induction tcs with
  | nil => intro p r; rfl
  | cons tc rest2 ih =>
      intro p r
      simp only [List.map_cons, List.cons_append, pairedAux, beq_self_eq_true,
        Bool.true_and]
      exact ih p r

/-- Consuming the tool messages of one whole turn: the plan acknowledgements, the
unknown-tool answers, and the specialist results exactly discharge the
grouped id sequence of the batch. -/
lemma pairedAux_turn_consume (env : SpecialistEnv) (planned : List String)
    (tcs : List ToolCall) (rest : List Message) :
    pairedAux groupedOrderIds (groupedOrderIds tcs)
      ((processPlanCalls planned (planCalls tcs)).2.2 ++
        (unknownMsgs (unknownCalls tcs) ++
          (((agentCalls tcs).map (callAgent env)).map resultMsg ++ rest))) =
    pairedAux groupedOrderIds [] rest := by
  have hr : ((agentCalls tcs).map (callAgent env)).map resultMsg =
      (agentCalls tcs).map (fun tc => Message.tool tc.id
        (if (callAgent env tc).is_error
          then "ERROR: " ++ (callAgent env tc).result_text
          else (callAgent env tc).result_text)) := by
    rw [List.map_map]
    exact List.map_congr_left (fun tc _ => resultMsg_callAgent env tc)
  rw [processPlanCalls_msgs, hr, unknownMsgs, groupedOrderIds, List.append_assoc,
    pairedAux_consume, pairedAux_consume]
  have := pairedAux_consume groupedOrderIds
    (fun tc => if (callAgent env tc).is_error
      then "ERROR: " ++ (callAgent env tc).result_text
      else (callAgent env tc).result_text) (agentCalls tcs) [] rest
  simpa using this

lemma runLoop_paired (env : SpecialistEnv) (script : ModelScript) :
    ∀ fuel turn planned completed,
      pairedAux groupedOrderIds [] (runLoop env script turn fuel planned completed).2 = true := by
  intro fuel
  induction fuel with
  | zero => intro turn planned completed; rfl
  | succ n ih =>
      intro turn planned completed
      cases hresp : script turn with
      | failure e => simp [runLoop, stepTurn, hresp, pairedAux]
      | message content tcs =>
          cases tcs with
          | nil => simp [runLoop, stepTurn, hresp, pairedAux]
          | cons t ts =>
              by_cases hacs : (agentCalls (t :: ts)).isEmpty
              · have hnil : agentCalls (t :: ts) = [] := List.isEmpty_iff.mp hacs
                simp only [runLoop, stepTurn, hresp, hacs, if_pos]
                simp only [List.cons_append, pairedAux, List.isEmpty_nil, Bool.true_and]
                have h2 := pairedAux_turn_consume env planned (t :: ts)
                  (runLoop env script (turn + 1) n
                    (processPlanCalls planned (planCalls (t :: ts))).1 completed).2
                rw [hnil] at h2
                simp only [List.map_nil, List.nil_append, List.append_nil, List.append_eq,
                  List.append_assoc] at h2 ⊢
                rw [h2]
                exact ih _ _ _
              · simp only [runLoop, stepTurn, hresp, hacs, if_neg, Bool.false_eq_true,
                  not_false_iff]
                simp only [List.cons_append, pairedAux, List.isEmpty_nil, Bool.true_and]
                have h2 := pairedAux_turn_consume env planned (t :: ts)
                  (runLoop env script (turn + 1) n
                    (processPlanUpdates (processPlanCalls planned (planCalls (t :: ts))).1
                      (agentCalls (t :: ts))).1
                    (completed ++ (processPlanUpdates
                      (processPlanCalls planned (planCalls (t :: ts))).1
                      (agentCalls (t :: ts))).2.1)).2
                simp only [List.append_eq, List.append_assoc] at h2 ⊢
                rw [h2]
                exact ih _ _ _

/-- C1 (amended): in every orchestration run, every ActionRequest emitted in
an Assistant message is answered by exactly one ActionResult appended before
the next Assistant message; the ActionResults are appended grouped by
category — plan requests first, then unknown-action requests, then
specialist requests — each group preserving the request order of the batch
(specialist results in request order even though the completion order of the
underlying calls is unspecified). -/
theorem orchestrate_pairing_grouped (env : SpecialistEnv) (script : ModelScript)
    (user_message : String) :
    paired groupedOrderIds (orchestrate env script user_message).2 = true := by
  have h := runLoop_paired env script max_turns 0 [] []
  simpa [paired, orchestrate, pairedAux] using h

/-- C1 counterexample: in a batch that mixes a specialist request (first)
with a `create_plan` request (second), the plan acknowledgement is appended
before the result of the specialist, so the relative order of the ActionResults
does not match the relative order of the requests within the batch. -/
theorem orchestrate_pairing_batch_order_fails :
    paired batchOrderIds
      (orchestrate (fun _ _ _ => ⟨some "success", some "ok", some []⟩)
        (fun n => match n with
          | 0 => .message none
              [⟨"a0", "call_weather_agent", ⟨[], "w", ""⟩⟩,
               ⟨"p1", "create_plan", ⟨[⟨"budget", "b"⟩], "", ""⟩⟩]
          | _ => .message (some "done") [])
        "q").2 = false := by decide

/-! ### Stream termination (C2) -/

/-- The `continue` branch of the loop body with no specialist calls in the
batch (`if not agent_calls: continue`), as an equation. -/
lemma stepTurn_eq_next_of_empty (env : SpecialistEnv) (planned completed : List String)
    (content : Option String) (t : ToolCall) (ts : List ToolCall)
    (hacs : (agentCalls (t :: ts)).isEmpty = true) :
    stepTurn env planned completed (.message content (t :: ts)) =
      .next (processPlanCalls planned (planCalls (t :: ts))).2.1
        (Message.assistant (contentOrNone content) (t :: ts) ::
          ((processPlanCalls planned (planCalls (t :: ts))).2.2 ++
            unknownMsgs (unknownCalls (t :: ts))))
        (processPlanCalls planned (planCalls (t :: ts))).1 completed := by
  simp only [stepTurn, hacs, if_pos]

/-- The dispatch branch of the loop body (at least one specialist call in
the batch), as an equation. -/
lemma stepTurn_eq_next_of_calls (env : SpecialistEnv) (planned completed : List String)
    (content : Option String) (t : ToolCall) (ts : List ToolCall)
    (hacs : (agentCalls (t :: ts)).isEmpty = false) :
    stepTurn env planned completed (.message content (t :: ts)) =
      .next ((processPlanCalls planned (planCalls (t :: ts))).2.1 ++
          (processPlanUpdates (processPlanCalls planned (planCalls (t :: ts))).1
            (agentCalls (t :: ts))).2.2 ++
          [Event.round_start
            (processPlanUpdates (processPlanCalls planned (planCalls (t :: ts))).1
              (agentCalls (t :: ts))).2.1
            (decide ((agentCalls (t :: ts)).length > 1))] ++
          startEvents (agentCalls (t :: ts)) ++
          ((agentCalls (t :: ts)).map (callAgent env)).map resultEvent)
        (Message.assistant (contentOrNone content) (t :: ts) ::
          ((processPlanCalls planned (planCalls (t :: ts))).2.2 ++
            unknownMsgs (unknownCalls (t :: ts)) ++
            ((agentCalls (t :: ts)).map (callAgent env)).map resultMsg))
        (processPlanUpdates (processPlanCalls planned (planCalls (t :: ts))).1
          (agentCalls (t :: ts))).1
        (completed ++ (processPlanUpdates
          (processPlanCalls planned (planCalls (t :: ts))).1
          (agentCalls (t :: ts))).2.1) := by
  simp only [stepTurn, hacs, Bool.false_eq_true, if_neg, not_false_iff]

/-- On a batch turn (non-empty tool calls) the loop always continues, and
every event it yields is a `plan`, `plan_update`, `round_start`,
`agent_start` or `agent_result` event. -/
lemma stepTurn_cons_events (env : SpecialistEnv) (planned completed : List String)
    (content : Option String) (t : ToolCall) (ts : List ToolCall) :
    ∃ evs msgs planned1 completed1,
      stepTurn env planned completed (.message content (t :: ts)) =
        .next evs msgs planned1 completed1 ∧
      ∀ e ∈ evs, (∃ st ag, e = Event.plan st ag) ∨
        (∃ ag k r, e = Event.plan_update ag k r) ∨
        (∃ ag p, e = Event.round_start ag p) ∨
        (∃ a tk, e = Event.agent_start a tk) ∨
        (∃ a r tl b, e = Event.agent_result a r tl b) := by
  by_cases hacs : (agentCalls (t :: ts)).isEmpty
  · refine ⟨_, _, _, _, stepTurn_eq_next_of_empty env planned completed content t ts hacs, ?_⟩
    intro e he
    rw [processPlanCalls_events] at he
    obtain ⟨tc, _, rfl⟩ := List.mem_map.mp he
    exact Or.inl ⟨_, _, rfl⟩
  · refine ⟨_, _, _, _, stepTurn_eq_next_of_calls env planned completed content t ts
      (Bool.eq_false_iff.mpr hacs), ?_⟩
    intro e he
    simp only [List.append_assoc, List.mem_append, List.mem_cons, List.mem_singleton,
      List.not_mem_nil, or_false] at he
    rcases he with he | he | rfl | he | he
    · rw [processPlanCalls_events] at he
      obtain ⟨tc, _, rfl⟩ := List.mem_map.mp he
      exact Or.inl ⟨_, _, rfl⟩
    · obtain ⟨ag, k, r, rfl⟩ := processPlanUpdates_events_shape _ _ e he
      exact Or.inr (Or.inl ⟨_, _, _, rfl⟩)
    · exact Or.inr (Or.inr (Or.inl ⟨_, _, rfl⟩))
    · rw [startEvents] at he
      obtain ⟨tc, _, rfl⟩ := List.mem_map.mp he
      exact Or.inr (Or.inr (Or.inr (Or.inl ⟨_, _, rfl⟩)))
    · obtain ⟨o, _, rfl⟩ := List.mem_map.mp he
      exact Or.inr (Or.inr (Or.inr (Or.inr ⟨_, _, _, _, rfl⟩)))

lemma runLoop_events_terminal (env : SpecialistEnv) (script : ModelScript) :
    ∀ fuel turn planned completed,
      ∃ e, (runLoop env script turn fuel planned completed).1.getLast? = some e ∧
        isTerminalEvent e = true := by
  intro fuel
  induction fuel with
  | zero => intro turn planned completed; exact ⟨Event.error maxTurnsErrorText, rfl, rfl⟩
  | succ n ih =>
      intro turn planned completed
      cases hresp : script turn with
      | failure err =>
          exact ⟨Event.error ("Model API error: " ++ err),
            by simp [runLoop, stepTurn, hresp], rfl⟩
      | message content tcs =>
          cases tcs with
          | nil =>
              exact ⟨Event.response (content.getD ""),
                by simp [runLoop, stepTurn, hresp], rfl⟩
          | cons t ts =>
              obtain ⟨evs, msgs, p1, c1, heq, _⟩ :=
                stepTurn_cons_events env planned completed content t ts
              obtain ⟨e, he, ht⟩ := ih (turn + 1) p1 c1
              refine ⟨e, ?_, ht⟩
              simp only [runLoop, hresp, heq]
              rw [List.getLast?_append, he]
              rfl

lemma runLoop_no_done (env : SpecialistEnv) (script : ModelScript) :
    ∀ fuel turn planned completed,
      ∀ e ∈ (runLoop env script turn fuel planned completed).1, isDoneEvent e = false := by
  intro fuel
  induction fuel with
  | zero =>
      intro turn planned completed e he
      simp only [runLoop, List.mem_singleton] at he
      subst he; rfl
  | succ n ih =>
      intro turn planned completed e he
      cases hresp : script turn with
      | failure err =>
          simp only [runLoop, stepTurn, hresp, List.mem_singleton] at he
          subst he; rfl
      | message content tcs =>
          cases tcs with
          | nil =>
              simp only [runLoop, stepTurn, hresp, List.mem_cons, List.mem_singleton,
                List.not_mem_nil, or_false] at he
              rcases he with he | he <;> (subst he; rfl)
          | cons t ts =>
              obtain ⟨evs, msgs, p1, c1, heq, hshape⟩ :=
                stepTurn_cons_events env planned completed content t ts
              simp only [runLoop, hresp, heq, List.mem_append] at he
              rcases he with he | he
              · rcases hshape e he with ⟨_, _, rfl⟩ | ⟨_, _, _, rfl⟩ | ⟨_, _, rfl⟩ |
                  ⟨_, _, rfl⟩ | ⟨_, _, _, _, rfl⟩ <;> rfl
              · exact ih _ _ _ e he

/-- C2: every run delivered through the `chat` handler of the server yields a stream
whose last event is exactly one `done`, immediately preceded by exactly one
of `response` or `error`; the stream is always well-formed and terminated. -/
theorem chat_stream_terminated (env : SpecialistEnv) (script : ModelScript)
    (user_message : String) :
    (chat env script user_message).getLast? = some Event.done ∧
    (chat env script user_message).countP isDoneEvent = 1 ∧
    ∃ e, (chat env script user_message).dropLast.getLast? = some e ∧
      isTerminalEvent e = true := by
  refine ⟨?_, ?_, ?_⟩
  · exact List.getLast?_concat _
  · rw [chat]
    rw [List.countP_append]
    have h0 : (orchestrate env script user_message).1.countP isDoneEvent = 0 := by
      rw [List.countP_eq_zero]
      intro e he
      rw [orchestrate] at he
      simp only [List.mem_cons] at he
      rcases he with rfl | he
      · simp [isDoneEvent]
      · simp [runLoop_no_done env script max_turns 0 [] [] e he]
    rw [h0]
    rfl
  · obtain ⟨e, he, ht⟩ := runLoop_events_terminal env script max_turns 0 [] []
    refine ⟨e, ?_, ht⟩
    rw [chat, List.dropLast_concat, orchestrate]
    show (Event.status "Planning which agents to use..." ::
      (runLoop env script 0 max_turns [] []).1).getLast? = some e
    rw [show (Event.status "Planning which agents to use..." ::
        (runLoop env script 0 max_turns [] []).1) =
        [Event.status "Planning which agents to use..."] ++
        (runLoop env script 0 max_turns [] []).1 from rfl,
      List.getLast?_append, he]
    rfl

/-! ### Specialist-client error handling (C3) -/

lemma string_take_length_le (s : String) (n : Nat) : (s.take n).length ≤ n := by
  rw [String.take_eq]
  show (s.1.take n).length ≤ n
  rw [List.length_take]
  exact min_le_left _ _

/-- C3: `send_task` is total (never raises past the client boundary), uses
the bounded wait constant 120, returns an error-flagged envelope with a
descriptive result text on any transport failure or timeout, and on a
non-200 response status returns an error-flagged envelope whose result text
carries the status and a body excerpt of at most 200 characters. -/
theorem send_task_error_handling (c : AgentClient) (task context : String)
    (outcome : HttpOutcome) :
    sendTaskTimeout = 120 ∧
    (∀ e, outcome = .failure e →
      (c.send_task task context outcome).status = some "error" ∧
      (c.send_task task context outcome).result =
        some ("Failed to reach " ++ c.agent_name ++ ": " ++ e)) ∧
    (∀ code text body, outcome = .response code text body → code ≠ 200 →
      (c.send_task task context outcome).status = some "error" ∧
      (c.send_task task context outcome).result =
        some ("HTTP " ++ toString code ++ ": " ++ text.take 200) ∧
      (text.take 200).length ≤ 200) := by
  refine ⟨rfl, ?_, ?_⟩
  · rintro e rfl
    exact ⟨rfl, rfl⟩
  · rintro code text body rfl hcode
    refine ⟨?_, ?_, string_take_length_le text 200⟩ <;>
      simp [AgentClient.send_task, hcode]

theorem send_task_error_handling_witness :
    ((AgentClient.mk "http://localhost:8003" "Weather Agent").send_task "t" ""
      (.failure "timeout")).status = some "error" ∧
    ((AgentClient.mk "http://localhost:8003" "Weather Agent").send_task "t" ""
      (.response 503 "Service Unavailable" none)).status = some "error" :=
  ⟨((send_task_error_handling _ "t" "" _).2.1 "timeout" rfl).1,
   ((send_task_error_handling _ "t" "" _).2.2 503 "Service Unavailable" none rfl
      (by decide)).1⟩

/-! ### The error flag of agent results (C4) -/

/-- From the spec words (§4.1): "error flag is set if and only if status ≠
success".  This is the predicate the claim asserts the code computes; the
code actually computes `envIsError` (`status == "error"`). -/
def specErrorFlag (res : Envelope) : Bool := res.status != some "success"

/-- C4 counterexample: an envelope with status `"partial"` is not `"success"`
(so the claim demands the error flag), yet the orchestrator emits its
`agent_result` with `is_error = false`, because the code tests
`status == "error"`, not `status ≠ "success"`. -/
theorem error_flag_mismatch_on_partial_status :
    specErrorFlag ⟨some "partial", some "draft", some []⟩ = true ∧
    envIsError ⟨some "partial", some "draft", some []⟩ = false ∧
    Event.agent_result "budget" "draft" [] false ∈
      (orchestrate (fun _ _ _ => ⟨some "partial", some "draft", some []⟩)
        (fun n => match n with
          | 0 => .message none [⟨"i1", "call_budget_agent", ⟨[], "t", ""⟩⟩]
          | _ => .message (some "d") [])
        "q").1 := by decide

lemma callAgent_of_registry (env : SpecialistEnv) (tc : ToolCall)
    (h : agentKey tc ∈ agentRegistryKeys) :
    callAgent env tc =
      { tc := tc, key := agentKey tc,
        result_text := (env (agentKey tc) tc.args.task tc.args.context).result.getD "No result",
        is_error := envIsError (env (agentKey tc) tc.args.task tc.args.context),
        tools_called := (env (agentKey tc) tc.args.task tc.args.context).tools_called.getD [] } := by
  simp [callAgent, h]

/-- C4 (amended): for every specialist request answered from a parsed
envelope, the `is_error` field of the emitted `agent_result` event is set if
and only if the envelope status equals `"error"` (not: differs from
`"success"`). -/
theorem agent_result_error_flag (env : SpecialistEnv) (planned completed : List String)
    (content : Option String) (tcs : List ToolCall) (tc : ToolCall)
    (hmem : tc ∈ agentCalls tcs) (hreg : agentKey tc ∈ agentRegistryKeys) :
    ∃ evs msgs planned1 completed1,
      stepTurn env planned completed (.message content tcs) =
        .next evs msgs planned1 completed1 ∧
      Event.agent_result (agentKey tc)
        ((env (agentKey tc) tc.args.task tc.args.context).result.getD "No result")
        (if (env (agentKey tc) tc.args.task tc.args.context).status == some "error" then []
         else (env (agentKey tc) tc.args.task tc.args.context).tools_called.getD [])
        ((env (agentKey tc) tc.args.task tc.args.context).status == some "error") ∈ evs := by
  cases tcs with
  | nil => simp [agentCalls] at hmem
  | cons t ts =>
      have hacs : (agentCalls (t :: ts)).isEmpty = false := by
        cases h : agentCalls (t :: ts) with
        | nil => rw [h] at hmem; cases hmem
        | cons a as => rfl
      refine ⟨_, _, _, _,
        stepTurn_eq_next_of_calls env planned completed content t ts hacs, ?_⟩
      simp only [List.append_assoc, List.mem_append]
      right; right; right; right
      refine List.mem_map.mpr ⟨callAgent env tc, List.mem_map.mpr ⟨tc, hmem, rfl⟩, ?_⟩
      rw [callAgent_of_registry env tc hreg, resultEvent]
      simp [envIsError]

theorem agent_result_error_flag_witness :
    ∃ evs msgs planned1 completed1,
      stepTurn (fun _ _ _ => ⟨some "error", some "boom", some []⟩) [] []
        (.message none [⟨"i1", "call_budget_agent", ⟨[], "t", ""⟩⟩]) =
        .next evs msgs planned1 completed1 ∧
      Event.agent_result "budget" "boom" [] true ∈ evs := by
  have h := agent_result_error_flag (fun _ _ _ => ⟨some "error", some "boom", some []⟩)
    [] [] none [⟨"i1", "call_budget_agent", ⟨[], "t", ""⟩⟩]
    ⟨"i1", "call_budget_agent", ⟨[], "t", ""⟩⟩ (by decide) (by decide)
  exact h

/-! ### Turn-bound exhaustion (C5) -/

lemma countP_assistant_toolmsgs (env : SpecialistEnv) (planned : List String)
    (tcs : List ToolCall) :
    ((processPlanCalls planned (planCalls tcs)).2.2 ++ unknownMsgs (unknownCalls tcs) ++
      ((agentCalls tcs).map (callAgent env)).map resultMsg).countP isAssistantMsg = 0 := by
  rw [List.countP_eq_zero]
  intro m hm
  simp only [List.mem_append] at hm
  rcases hm with (hm | hm) | hm
  · rw [processPlanCalls_msgs] at hm
    obtain ⟨tc, _, rfl⟩ := List.mem_map.mp hm
    simp [isAssistantMsg]
  · rw [unknownMsgs] at hm
    obtain ⟨tc, _, rfl⟩ := List.mem_map.mp hm
    simp [isAssistantMsg]
  · obtain ⟨o, _, rfl⟩ := List.mem_map.mp hm
    simp [resultMsg, isAssistantMsg]

lemma runLoop_max_turns (env : SpecialistEnv) (script : ModelScript) :
    ∀ fuel turn planned completed,
      (∀ n, turn ≤ n → n < turn + fuel → ∃ c t ts, script n = .message c (t :: ts)) →
      (runLoop env script turn fuel planned completed).1.getLast? =
        some (Event.error maxTurnsErrorText) ∧
      (runLoop env script turn fuel planned completed).2.countP isAssistantMsg = fuel := by
  intro fuel
  induction fuel with
  | zero => intro turn planned completed _; exact ⟨rfl, rfl⟩
  | succ n ih =>
      intro turn planned completed h
      obtain ⟨c, t, ts, hresp⟩ := h turn (le_refl _) (by omega)
      have hrec : ∀ m, turn + 1 ≤ m → m < turn + 1 + n → ∃ c t ts, script m = .message c (t :: ts) := by
        intro m h1 h2; exact h m (by omega) (by omega)
      by_cases hacs : (agentCalls (t :: ts)).isEmpty
      · have heq := stepTurn_eq_next_of_empty env planned completed c t ts hacs
        obtain ⟨ih1, ih2⟩ := ih (turn + 1) (processPlanCalls planned (planCalls (t :: ts))).1
          completed hrec
        constructor
        · simp only [runLoop, hresp, heq]
          rw [List.getLast?_append, ih1]
          rfl
        · simp only [runLoop, hresp, heq, List.cons_append, List.countP_cons,
            List.countP_append]
          rw [ih2]
          have h0 := countP_assistant_toolmsgs env planned (t :: ts)
          have hnil : agentCalls (t :: ts) = [] := List.isEmpty_iff.mp hacs
          rw [hnil] at h0
          simp only [List.map_nil, List.append_nil, List.countP_append] at h0
          simp only [isAssistantMsg, eq_self_iff_true, if_true]
          omega
      · have hacs2 : (agentCalls (t :: ts)).isEmpty = false := Bool.eq_false_iff.mpr hacs
        have heq := stepTurn_eq_next_of_calls env planned completed c t ts hacs2
        obtain ⟨ih1, ih2⟩ := ih (turn + 1)
          (processPlanUpdates (processPlanCalls planned (planCalls (t :: ts))).1
            (agentCalls (t :: ts))).1
          (completed ++ (processPlanUpdates
            (processPlanCalls planned (planCalls (t :: ts))).1
            (agentCalls (t :: ts))).2.1) hrec
        constructor
        · simp only [runLoop, hresp, heq]
          rw [List.getLast?_append, ih1]
          rfl
        · simp only [runLoop, hresp, heq, List.cons_append, List.countP_cons,
            List.countP_append]
          rw [ih2]
          have h0 := countP_assistant_toolmsgs env planned (t :: ts)
          simp only [List.countP_append] at h0
          simp only [isAssistantMsg, eq_self_iff_true, if_true]
          omega

/-- C5: if the reasoning endpoint returns a tool-call-bearing response on
every turn, the run terminates after exactly 15 turns (15 assistant
messages appended) with the dedicated maximum-turns error event as the last
event, and that event differs from every model-failure error event. -/
theorem turn_bound_exceeded (env : SpecialistEnv) (script : ModelScript)
    (user_message : String)
    (h : ∀ n, n < max_turns → ∃ c t ts, script n = .message c (t :: ts)) :
    (orchestrate env script user_message).1.getLast? =
      some (Event.error maxTurnsErrorText) ∧
    (orchestrate env script user_message).2.countP isAssistantMsg = max_turns ∧
    ∀ s, Event.error maxTurnsErrorText ≠ Event.error ("Model API error: " ++ s) := by
  obtain ⟨h1, h2⟩ := runLoop_max_turns env script max_turns 0 [] []
    (fun n _ hn2 => h n (by omega))
  refine ⟨?_, ?_, ?_⟩
  · rw [orchestrate]
    show (Event.status "Planning which agents to use..." ::
      (runLoop env script 0 max_turns [] []).1).getLast? =
      some (Event.error maxTurnsErrorText)
    rw [show (Event.status "Planning which agents to use..." ::
        (runLoop env script 0 max_turns [] []).1) =
        [Event.status "Planning which agents to use..."] ++
        (runLoop env script 0 max_turns [] []).1 from rfl,
      List.getLast?_append, h1]
    rfl
  · rw [orchestrate]
    show (Message.system SUPERVISOR_SYSTEM_PROMPT :: Message.user user_message ::
      (runLoop env script 0 max_turns [] []).2).countP isAssistantMsg = max_turns
    simp only [List.countP_cons]
    rw [h2]
    simp [isAssistantMsg]
  · intro s hcontra
    have hs : maxTurnsErrorText = "Model API error: " ++ s := by
      injection hcontra
    have hd : maxTurnsErrorText.data.head? = ("Model API error: " ++ s).data.head? :=
      congrArg (fun t => t.data.head?) hs
    rw [String.data_append] at hd
    have hSM : (some 'S' : Option Char) = some 'M' := hd
    exact absurd (Option.some.inj hSM) (by decide)

theorem turn_bound_exceeded_witness :
    (orchestrate (fun _ _ _ => ⟨some "success", some "ok", some []⟩)
      (fun _ => .message none [⟨"i1", "call_budget_agent", ⟨[], "t", ""⟩⟩])
      "q").1.getLast? = some (Event.error maxTurnsErrorText) :=
  (turn_bound_exceeded (fun _ _ _ => ⟨some "success", some "ok", some []⟩)
    (fun _ => .message none [⟨"i1", "call_budget_agent", ⟨[], "t", ""⟩⟩]) "q"
    (fun _ _ => ⟨none, ⟨"i1", "call_budget_agent", ⟨[], "t", ""⟩⟩, [], rfl⟩)).1

/-! ### Round structure: round_start, agent_start, agent_result ordering (C6) -/

lemma mem_planEvents_shape {planned : List String} {pcs : List ToolCall} {e : Event}
    (he : e ∈ (processPlanCalls planned pcs).2.1) : ∃ st ag, e = Event.plan st ag := by
  rw [processPlanCalls_events] at he
  obtain ⟨tc, _, rfl⟩ := List.mem_map.mp he
  exact ⟨_, _, rfl⟩

lemma mem_startEvents_shape {tcs : List ToolCall} {e : Event} (he : e ∈ startEvents tcs) :
    ∃ tc, tc ∈ tcs ∧ e = Event.agent_start (agentKey tc) (tc.args.task.take 150) := by
  rw [startEvents] at he
  obtain ⟨tc, htc, rfl⟩ := List.mem_map.mp he
  exact ⟨tc, htc, rfl⟩

lemma mem_resultEvents_shape {env : SpecialistEnv} {tcs : List ToolCall} {e : Event}
    (he : e ∈ (tcs.map (callAgent env)).map resultEvent) :
    ∃ o : CallOutcome, e = Event.agent_result o.key o.result_text
      (if o.is_error then [] else o.tools_called) o.is_error := by
  obtain ⟨o, _, rfl⟩ := List.mem_map.mp he
  exact ⟨o, rfl⟩

lemma countP_planEvents_zero (p : Event → Bool)
    (hp : ∀ st ag, p (Event.plan st ag) = false)
    (planned : List String) (pcs : List ToolCall) :
    ((processPlanCalls planned pcs).2.1).countP p = 0 := by
  rw [List.countP_eq_zero]
  intro e he
  obtain ⟨st, ag, rfl⟩ := mem_planEvents_shape he
  simp [hp]

lemma countP_updEvents_zero (p : Event → Bool)
    (hp : ∀ ag k r, p (Event.plan_update ag k r) = false)
    (planned : List String) (acs : List ToolCall) :
    ((processPlanUpdates planned acs).2.2).countP p = 0 := by
  rw [List.countP_eq_zero]
  intro e he
  obtain ⟨ag, k, r, rfl⟩ := processPlanUpdates_events_shape acs planned e he
  simp [hp]

lemma countP_startEvents_zero (p : Event → Bool)
    (hp : ∀ a tk, p (Event.agent_start a tk) = false) (tcs : List ToolCall) :
    (startEvents tcs).countP p = 0 := by
  rw [List.countP_eq_zero]
  intro e he
  obtain ⟨tc, _, rfl⟩ := mem_startEvents_shape he
  simp [hp]

lemma countP_resultEvents_zero (p : Event → Bool)
    (hp : ∀ a r tl b, p (Event.agent_result a r tl b) = false)
    (env : SpecialistEnv) (tcs : List ToolCall) :
    ((tcs.map (callAgent env)).map resultEvent).countP p = 0 := by
  rw [List.countP_eq_zero]
  intro e he
  obtain ⟨o, rfl⟩ := mem_resultEvents_shape he
  simp [hp]

/-- C6: for every batch with at least one specialist request, the events of
that turn contain exactly one `round_start`, it names all specialist keys of
the batch with `parallel` exactly when the batch has more than one request;
there is one `agent_start` per request with the task text truncated to at
most 150 characters; and every `agent_start` of the round precedes every
`agent_result` of the round. -/
theorem round_start_and_fanout_events (env : SpecialistEnv)
    (planned completed : List String) (content : Option String)
    (tcs : List ToolCall) (hac : agentCalls tcs ≠ []) :
    ∃ evs msgs planned1 completed1,
      stepTurn env planned completed (.message content tcs) =
        .next evs msgs planned1 completed1 ∧
      evs.countP isRoundStartEvent = 1 ∧
      Event.round_start ((agentCalls tcs).map agentKey)
        (decide ((agentCalls tcs).length > 1)) ∈ evs ∧
      evs.filter isAgentStartEvent =
        (agentCalls tcs).map
          (fun tc => Event.agent_start (agentKey tc) (tc.args.task.take 150)) ∧
      (∀ a tk, Event.agent_start a tk ∈ evs → tk.length ≤ 150) ∧
      ∃ A B, evs = A ++ B ∧ (∀ e ∈ A, isAgentResultEvent e = false) ∧
        (∀ e ∈ B, isAgentStartEvent e = false) := by
  cases tcs with
  | nil => simp [agentCalls] at hac
  | cons t ts =>
      have hacs : (agentCalls (t :: ts)).isEmpty = false := by
        cases h : agentCalls (t :: ts) with
        | nil => exact absurd h hac
        | cons a as => rfl
      refine ⟨_, _, _, _,
        stepTurn_eq_next_of_calls env planned completed content t ts hacs,
        ?_, ?_, ?_, ?_, ?_⟩
      · simp only [List.countP_append]
        rw [countP_planEvents_zero _ (fun _ _ => rfl) planned,
            countP_updEvents_zero _ (fun _ _ _ => rfl),
            countP_startEvents_zero _ (fun _ _ => rfl),
            countP_resultEvents_zero _ (fun _ _ _ _ => rfl)]
        simp [List.countP_singleton, isRoundStartEvent]
      · rw [processPlanUpdates_keys]
        simp
      · simp only [List.filter_append]
        rw [List.filter_eq_nil_iff.mpr, List.filter_eq_nil_iff.mpr,
            List.filter_eq_nil_iff.mpr, List.filter_eq_self.mpr]
        · simp only [List.nil_append, List.append_nil]
          show startEvents (agentCalls (t :: ts)) ++
            List.filter isAgentStartEvent
              (((agentCalls (t :: ts)).map (callAgent env)).map resultEvent) = _
          rw [List.filter_eq_nil_iff.mpr, List.append_nil, startEvents]
          intro e he
          obtain ⟨o, rfl⟩ := mem_resultEvents_shape he
          simp [isAgentStartEvent]
        · intro e he
          obtain ⟨tc, _, rfl⟩ := mem_startEvents_shape he
          rfl
        · intro e he
          simp only [List.mem_singleton] at he
          subst he
          simp [isAgentStartEvent]
        · intro e he
          obtain ⟨ag, k, r, rfl⟩ := processPlanUpdates_events_shape _ _ e he
          simp [isAgentStartEvent]
        · intro e he
          obtain ⟨st, ag, rfl⟩ := mem_planEvents_shape he
          simp [isAgentStartEvent]
      · intro a tk hmem
        simp only [List.append_assoc, List.mem_append, List.mem_cons,
          List.not_mem_nil, or_false] at hmem
        rcases hmem with hm | hm | hm | hm | hm
        · obtain ⟨st, ag, h⟩ := mem_planEvents_shape hm
          cases h
        · obtain ⟨ag, k, r, h⟩ := processPlanUpdates_events_shape _ _ _ hm
          cases h
        · cases hm
        · obtain ⟨tc, _, h⟩ := mem_startEvents_shape hm
          cases h
          exact string_take_length_le _ _
        · obtain ⟨o, h⟩ := mem_resultEvents_shape hm
          cases h
      · refine ⟨(processPlanCalls planned (planCalls (t :: ts))).2.1 ++
            (processPlanUpdates (processPlanCalls planned (planCalls (t :: ts))).1
              (agentCalls (t :: ts))).2.2 ++
            [Event.round_start
              (processPlanUpdates (processPlanCalls planned (planCalls (t :: ts))).1
                (agentCalls (t :: ts))).2.1
              (decide ((agentCalls (t :: ts)).length > 1))] ++
            startEvents (agentCalls (t :: ts)),
          ((agentCalls (t :: ts)).map (callAgent env)).map resultEvent, rfl, ?_, ?_⟩
        · intro e he
          simp only [List.append_assoc, List.mem_append, List.mem_cons,
            List.not_mem_nil, or_false] at he
          rcases he with hm | hm | rfl | hm
          · obtain ⟨st, ag, rfl⟩ := mem_planEvents_shape hm
            rfl
          · obtain ⟨ag, k, r, rfl⟩ := processPlanUpdates_events_shape _ _ _ hm
            rfl
          · rfl
          · obtain ⟨tc, _, rfl⟩ := mem_startEvents_shape hm
            rfl
        · intro e he
          obtain ⟨o, rfl⟩ := mem_resultEvents_shape he
          rfl

theorem round_start_and_fanout_events_witness :
    ∃ evs msgs planned1 completed1,
      stepTurn (fun _ _ _ => ⟨some "success", some "ok", some []⟩) [] []
        (.message none
          [⟨"i1", "call_budget_agent", ⟨[], "t1", ""⟩⟩,
           ⟨"i2", "call_transport_agent", ⟨[], "t2", ""⟩⟩]) =
        .next evs msgs planned1 completed1 ∧
      evs.countP isRoundStartEvent = 1 ∧
      Event.round_start
        ((agentCalls
          [⟨"i1", "call_budget_agent", ⟨[], "t1", ""⟩⟩,
           ⟨"i2", "call_transport_agent", ⟨[], "t2", ""⟩⟩]).map agentKey)
        (decide ((agentCalls
          [⟨"i1", "call_budget_agent", ⟨[], "t1", ""⟩⟩,
           ⟨"i2", "call_transport_agent", ⟨[], "t2", ""⟩⟩]).length > 1)) ∈ evs ∧
      evs.filter isAgentStartEvent =
        (agentCalls
          [⟨"i1", "call_budget_agent", ⟨[], "t1", ""⟩⟩,
           ⟨"i2", "call_transport_agent", ⟨[], "t2", ""⟩⟩]).map
          (fun tc => Event.agent_start (agentKey tc) (tc.args.task.take 150)) ∧
      (∀ a tk, Event.agent_start a tk ∈ evs → tk.length ≤ 150) ∧
      ∃ A B, evs = A ++ B ∧ (∀ e ∈ A, isAgentResultEvent e = false) ∧
        (∀ e ∈ B, isAgentStartEvent e = false) :=
  round_start_and_fanout_events (fun _ _ _ => ⟨some "success", some "ok", some []⟩)
    [] [] none
    [⟨"i1", "call_budget_agent", ⟨[], "t1", ""⟩⟩,
     ⟨"i2", "call_transport_agent", ⟨[], "t2", ""⟩⟩] (by decide)

/-! ### Unknown actions (C7) -/

/-- C7: an action request whose name is neither `create_plan` nor a key of
the tool registry is answered with a tool message stating the action is
unknown, is never executed (the batch produces exactly one `agent_start` and
one `agent_result` per registered specialist call, and the unknown request
is not among them), no `error` event is emitted, and the loop continues with
the next turn rather than aborting. -/
theorem unknown_action_handling (env : SpecialistEnv) (planned completed : List String)
    (content : Option String) (tcs : List ToolCall) (uc : ToolCall)
    (hmem : uc ∈ tcs) (hplan : isPlanCall uc = false) (hreg : isRegistryCall uc = false) :
    ∃ evs msgs planned1 completed1,
      stepTurn env planned completed (.message content tcs) =
        .next evs msgs planned1 completed1 ∧
      Message.tool uc.id ("Unknown tool: " ++ uc.name) ∈ msgs ∧
      evs.countP isErrorEvent = 0 ∧
      evs.countP isAgentStartEvent = (agentCalls tcs).length ∧
      evs.countP isAgentResultEvent = (agentCalls tcs).length ∧
      uc ∉ agentCalls tcs := by
  have hu : uc ∈ unknownCalls tcs :=
    List.mem_filter.mpr ⟨hmem, by simp [hplan, hreg]⟩
  have humsg : Message.tool uc.id ("Unknown tool: " ++ uc.name) ∈
      unknownMsgs (unknownCalls tcs) :=
    List.mem_map.mpr ⟨uc, hu, rfl⟩
  have hnotac : uc ∉ agentCalls tcs := by
    intro hac
    have := (List.mem_filter.mp hac).2
    rw [hreg] at this
    simp at this
  cases tcs with
  | nil => cases hmem
  | cons t ts =>
      by_cases hacs : (agentCalls (t :: ts)).isEmpty
      · have hnil : agentCalls (t :: ts) = [] := List.isEmpty_iff.mp hacs
        refine ⟨_, _, _, _,
          stepTurn_eq_next_of_empty env planned completed content t ts hacs,
          ?_, ?_, ?_, ?_, hnotac⟩
        · simp only [List.mem_cons, List.mem_append]
          exact Or.inr (Or.inr humsg)
        · exact countP_planEvents_zero _ (fun _ _ => rfl) planned _
        · rw [countP_planEvents_zero _ (fun _ _ => rfl) planned, hnil]
          rfl
        · rw [countP_planEvents_zero _ (fun _ _ => rfl) planned, hnil]
          rfl
      · have hacs2 : (agentCalls (t :: ts)).isEmpty = false := Bool.eq_false_iff.mpr hacs
        refine ⟨_, _, _, _,
          stepTurn_eq_next_of_calls env planned completed content t ts hacs2,
          ?_, ?_, ?_, ?_, hnotac⟩
        · simp only [List.mem_cons, List.mem_append]
          exact Or.inr (Or.inl (Or.inr humsg))
        · simp only [List.countP_append]
          rw [countP_planEvents_zero _ (fun _ _ => rfl) planned,
              countP_updEvents_zero _ (fun _ _ _ => rfl),
              countP_startEvents_zero _ (fun _ _ => rfl),
              countP_resultEvents_zero _ (fun _ _ _ _ => rfl)]
          simp [List.countP_singleton, isErrorEvent]
        · simp only [List.countP_append]
          have h1 := countP_planEvents_zero isAgentStartEvent (fun _ _ => rfl)
            planned (planCalls (t :: ts))
          have h2 := countP_updEvents_zero isAgentStartEvent (fun _ _ _ => rfl)
            (processPlanCalls planned (planCalls (t :: ts))).1 (agentCalls (t :: ts))
          have h3 : List.countP isAgentStartEvent
              [Event.round_start
                (processPlanUpdates (processPlanCalls planned (planCalls (t :: ts))).1
                  (agentCalls (t :: ts))).2.1
                (decide ((agentCalls (t :: ts)).length > 1))] = 0 := rfl
          have h4 : (startEvents (agentCalls (t :: ts))).countP isAgentStartEvent =
              (agentCalls (t :: ts)).length := by
            rw [List.countP_eq_length.mpr
              (fun e he => by obtain ⟨tc, _, rfl⟩ := mem_startEvents_shape he; rfl),
              startEvents, List.length_map]
          have h5 := countP_resultEvents_zero isAgentStartEvent (fun _ _ _ _ => rfl)
            env (agentCalls (t :: ts))
          omega
        · simp only [List.countP_append]
          have h1 := countP_planEvents_zero isAgentResultEvent (fun _ _ => rfl)
            planned (planCalls (t :: ts))
          have h2 := countP_updEvents_zero isAgentResultEvent (fun _ _ _ => rfl)
            (processPlanCalls planned (planCalls (t :: ts))).1 (agentCalls (t :: ts))
          have h3 : List.countP isAgentResultEvent
              [Event.round_start
                (processPlanUpdates (processPlanCalls planned (planCalls (t :: ts))).1
                  (agentCalls (t :: ts))).2.1
                (decide ((agentCalls (t :: ts)).length > 1))] = 0 := rfl
          have h4 := countP_startEvents_zero isAgentResultEvent (fun _ _ => rfl)
            (agentCalls (t :: ts))
          have h5 : (((agentCalls (t :: ts)).map (callAgent env)).map
              resultEvent).countP isAgentResultEvent = (agentCalls (t :: ts)).length := by
            rw [List.countP_eq_length.mpr
              (fun e he => by obtain ⟨o, rfl⟩ := mem_resultEvents_shape he; rfl),
              List.length_map, List.length_map]
          omega

theorem unknown_action_handling_witness :
    ∃ evs msgs planned1 completed1,
      stepTurn (fun _ _ _ => ⟨some "success", some "ok", some []⟩) [] []
        (.message none [⟨"u1", "call_mystery_agent", ⟨[], "x", ""⟩⟩]) =
        .next evs msgs planned1 completed1 ∧
      Message.tool "u1" ("Unknown tool: " ++ "call_mystery_agent") ∈ msgs ∧
      evs.countP isErrorEvent = 0 ∧
      evs.countP isAgentStartEvent =
        (agentCalls [⟨"u1", "call_mystery_agent", ⟨[], "x", ""⟩⟩]).length ∧
      evs.countP isAgentResultEvent =
        (agentCalls [⟨"u1", "call_mystery_agent", ⟨[], "x", ""⟩⟩]).length ∧
      (⟨"u1", "call_mystery_agent", ⟨[], "x", ""⟩⟩ : ToolCall) ∉
        agentCalls [⟨"u1", "call_mystery_agent", ⟨[], "x", ""⟩⟩] := by
  have h := unknown_action_handling (fun _ _ _ => ⟨some "success", some "ok", some []⟩)
    [] [] none [⟨"u1", "call_mystery_agent", ⟨[], "x", ""⟩⟩]
    ⟨"u1", "call_mystery_agent", ⟨[], "x", ""⟩⟩
    (by decide) (by decide) (by decide)
  exact h

/-! ### Plan updates for improvised specialists (C8) -/

/-- C8: in a batch with at least one specialist request, a `plan_update`
event is emitted for a key exactly when that key is dispatched in the batch
and absent from the declared plan (as left by the batch plan calls); each
such event carries the fixed reason text and the updated agent list ending
in the added key; every dispatched key ends up recorded in the plan; and all
`plan_update` events precede the `round_start` event. -/
theorem plan_update_on_unplanned (env : SpecialistEnv) (planned completed : List String)
    (content : Option String) (tcs : List ToolCall) (hac : agentCalls tcs ≠ []) :
    ∃ evs msgs planned1 completed1,
      stepTurn env planned completed (.message content tcs) =
        .next evs msgs planned1 completed1 ∧
      (∀ k, (∃ ag r, Event.plan_update ag k r ∈ evs) ↔
        (k ∈ (agentCalls tcs).map agentKey ∧
          k ∉ (processPlanCalls planned (planCalls tcs)).1)) ∧
      (∀ ag k r, Event.plan_update ag k r ∈ evs →
        r = "Supervisor decided to also consult " ++ AGENT_DISPLAY_NAMES k ∧
        ag.getLast? = some k ∧ k ∈ planned1) ∧
      (∀ k, k ∈ (agentCalls tcs).map agentKey → k ∈ planned1) ∧
      ∃ A B, evs = A ++ B ∧ (∃ ag par, Event.round_start ag par ∈ B) ∧
        ∀ e ∈ B, isPlanUpdateEvent e = false := by
  cases tcs with
  | nil => simp [agentCalls] at hac
  | cons t ts =>
      have hacs : (agentCalls (t :: ts)).isEmpty = false := by
        cases h : agentCalls (t :: ts) with
        | nil => exact absurd h hac
        | cons a as => rfl
      refine ⟨_, _, _, _,
        stepTurn_eq_next_of_calls env planned completed content t ts hacs,
        ?_, ?_, ?_, ?_⟩
      · intro k
        constructor
        · rintro ⟨ag, r, hm⟩
          simp only [List.append_assoc, List.mem_append, List.mem_cons,
            List.not_mem_nil, or_false] at hm
          rcases hm with hm | hm | hm | hm | hm
          · obtain ⟨st, ag2, h⟩ := mem_planEvents_shape hm
            cases h
          · obtain ⟨_, _, hmem, hnot⟩ := processPlanUpdates_events_mem _ _ ag k r hm
            exact ⟨hmem, hnot⟩
          · cases hm
          · obtain ⟨tc, _, h⟩ := mem_startEvents_shape hm
            cases h
          · obtain ⟨o, h⟩ := mem_resultEvents_shape hm
            cases h
        · rintro ⟨hk, hnot⟩
          obtain ⟨ag, r, hm⟩ := processPlanUpdates_events_exists _ _ k hk hnot
          refine ⟨ag, r, ?_⟩
          simp only [List.append_assoc, List.mem_append]
          exact Or.inr (Or.inl hm)
      · intro ag k r hm
        simp only [List.append_assoc, List.mem_append, List.mem_cons,
          List.not_mem_nil, or_false] at hm
        rcases hm with hm | hm | hm | hm | hm
        · obtain ⟨st, ag2, h⟩ := mem_planEvents_shape hm
          cases h
        · obtain ⟨hr, hag, hmem, _⟩ := processPlanUpdates_events_mem _ _ ag k r hm
          refine ⟨hr, hag, ?_⟩
          rw [processPlanUpdates_planned_mem]
          exact Or.inr hmem
        · cases hm
        · obtain ⟨tc, _, h⟩ := mem_startEvents_shape hm
          cases h
        · obtain ⟨o, h⟩ := mem_resultEvents_shape hm
          cases h
      · intro k hk
        rw [processPlanUpdates_planned_mem]
        exact Or.inr hk
      · refine ⟨(processPlanCalls planned (planCalls (t :: ts))).2.1 ++
            (processPlanUpdates (processPlanCalls planned (planCalls (t :: ts))).1
              (agentCalls (t :: ts))).2.2,
          [Event.round_start
            (processPlanUpdates (processPlanCalls planned (planCalls (t :: ts))).1
              (agentCalls (t :: ts))).2.1
            (decide ((agentCalls (t :: ts)).length > 1))] ++
            startEvents (agentCalls (t :: ts)) ++
            ((agentCalls (t :: ts)).map (callAgent env)).map resultEvent,
          by simp [List.append_assoc],
          ⟨(processPlanUpdates (processPlanCalls planned (planCalls (t :: ts))).1
              (agentCalls (t :: ts))).2.1,
           decide ((agentCalls (t :: ts)).length > 1), by simp⟩, ?_⟩
        intro e he
        simp only [List.mem_append, List.mem_cons, List.not_mem_nil, or_false] at he
        rcases he with (rfl | hm) | hm
        · rfl
        · obtain ⟨tc, _, rfl⟩ := mem_startEvents_shape hm
          rfl
        · obtain ⟨o, rfl⟩ := mem_resultEvents_shape hm
          rfl

theorem plan_update_on_unplanned_witness :
    ∃ evs msgs planned1 completed1,
      stepTurn (fun _ _ _ => ⟨some "success", some "ok", some []⟩) ["weather"] []
        (.message none
          [⟨"i1", "call_weather_agent", ⟨[], "w", ""⟩⟩,
           ⟨"i2", "call_budget_agent", ⟨[], "b", ""⟩⟩]) =
        .next evs msgs planned1 completed1 ∧
      (∀ k, (∃ ag r, Event.plan_update ag k r ∈ evs) ↔
        (k ∈ (agentCalls
          [⟨"i1", "call_weather_agent", ⟨[], "w", ""⟩⟩,
           ⟨"i2", "call_budget_agent", ⟨[], "b", ""⟩⟩]).map agentKey ∧
          k ∉ (processPlanCalls ["weather"] (planCalls
            [⟨"i1", "call_weather_agent", ⟨[], "w", ""⟩⟩,
             ⟨"i2", "call_budget_agent", ⟨[], "b", ""⟩⟩])).1)) ∧
      (∀ ag k r, Event.plan_update ag k r ∈ evs →
        r = "Supervisor decided to also consult " ++ AGENT_DISPLAY_NAMES k ∧
        ag.getLast? = some k ∧ k ∈ planned1) ∧
      (∀ k, k ∈ (agentCalls
        [⟨"i1", "call_weather_agent", ⟨[], "w", ""⟩⟩,
         ⟨"i2", "call_budget_agent", ⟨[], "b", ""⟩⟩]).map agentKey → k ∈ planned1) ∧
      ∃ A B, evs = A ++ B ∧ (∃ ag par, Event.round_start ag par ∈ B) ∧
        ∀ e ∈ B, isPlanUpdateEvent e = false :=
  plan_update_on_unplanned (fun _ _ _ => ⟨some "success", some "ok", some []⟩)
    ["weather"] [] none
    [⟨"i1", "call_weather_agent", ⟨[], "w", ""⟩⟩,
     ⟨"i2", "call_budget_agent", ⟨[], "b", ""⟩⟩] (by decide)

/-! ### Concurrency of a parallel batch (C9) -/

/-- Maximum of a list of durations. -/
def listMax : List Nat → Nat
  | [] => 0
  | a :: rest => Nat.max a (listMax rest)

lemma le_listMax_of_mem : ∀ {ls : List Nat} {a : Nat}, a ∈ ls → a ≤ listMax ls := by
  intro ls
  induction ls with
  | nil => intro a ha; cases ha
  | cons b rest ih =>
      intro a ha
      rcases List.mem_cons.mp ha with rfl | ha
      · exact Nat.le_max_left _ _
      · exact le_trans (ih ha) (Nat.le_max_right _ _)

lemma listMax_le_sum : ∀ ls : List Nat, listMax ls ≤ ls.sum := by
  intro ls
  induction ls with
  | nil => exact Nat.le_refl 0
  | cons a rest ih =>
      rw [listMax, List.sum_cons]
      exact Nat.max_le.mpr ⟨Nat.le_add_right _ _, le_trans ih (Nat.le_add_left _ _)⟩

/-- A timestamped event of the timed model. -/
structure TimedEvent where
  time : Nat
  event : Event
deriving DecidableEq, Repr

/-- Timed model of the parallel dispatch branch (orchestrator.py lines
278–314).  `asyncio.gather` is modelled with its fan-out/fan-in semantics:
all `_call_agent` coroutines are launched together at time `t0` (right after
the `agent_start` events are emitted), the coroutine for call `tc` resolves
`lat tc` time units later, `gather` returns once the slowest has resolved,
and only then does the loop fold the results back in request order.  The
first component is the completion time of the batch. -/
def gatherRound (env : SpecialistEnv) (lat : ToolCall → Nat) (t0 : Nat)
    (acs : List ToolCall) : Nat × List TimedEvent :=
  (t0 + listMax (acs.map lat),
   acs.map (fun tc => ⟨t0, Event.agent_start (agentKey tc) (tc.args.task.take 150)⟩) ++
   acs.map (fun tc => ⟨t0 + listMax (acs.map lat), resultEvent (callAgent env tc)⟩))

/-- C9: for a batch of more than one specialist request, all client
invocations are launched at the same instant `t0`; the batch completes at
`t0` plus the maximum (not the sum) of the individual latencies; every
individual call resolves no later than the batch completion; no
`agent_result` carries a timestamp earlier than the resolution of any call
of the batch (no partial result is forwarded mid-batch); and the untimed
projection of the timed trace is exactly the `agent_start` / `agent_result`
event sequence of the orchestrator embedding. -/
theorem parallel_batch_fan_in (env : SpecialistEnv) (lat : ToolCall → Nat)
    (t0 : Nat) (acs : List ToolCall) (hpar : acs.length > 1) :
    ((gatherRound env lat t0 acs).2.map TimedEvent.event =
      startEvents acs ++ (acs.map (callAgent env)).map resultEvent) ∧
    (∀ te ∈ (gatherRound env lat t0 acs).2,
      isAgentStartEvent te.event = true → te.time = t0) ∧
    ((gatherRound env lat t0 acs).1 = t0 + listMax (acs.map lat) ∧
      listMax (acs.map lat) ≤ (acs.map lat).sum) ∧
    (∀ tc ∈ acs, t0 + lat tc ≤ (gatherRound env lat t0 acs).1) ∧
    (∀ te ∈ (gatherRound env lat t0 acs).2, isAgentResultEvent te.event = true →
      ∀ tc ∈ acs, t0 + lat tc ≤ te.time) := by
  have _ := hpar
  refine ⟨?_, ?_, ⟨rfl, listMax_le_sum _⟩, ?_, ?_⟩
  · simp only [gatherRound, List.map_append, List.map_map]
    rfl
  · intro te hte hstart
    simp only [gatherRound, List.mem_append] at hte
    rcases hte with hte | hte
    · obtain ⟨tc, _, rfl⟩ := List.mem_map.mp hte
      rfl
    · obtain ⟨tc, _, rfl⟩ := List.mem_map.mp hte
      simp [resultEvent, isAgentStartEvent] at hstart
  · intro tc htc
    exact Nat.add_le_add_left (le_listMax_of_mem (List.mem_map_of_mem lat htc)) t0
  · intro te hte hres tc htc
    simp only [gatherRound, List.mem_append] at hte
    rcases hte with hte | hte
    · obtain ⟨tc2, _, rfl⟩ := List.mem_map.mp hte
      simp [isAgentResultEvent] at hres
    · obtain ⟨tc2, _, rfl⟩ := List.mem_map.mp hte
      exact Nat.add_le_add_left (le_listMax_of_mem (List.mem_map_of_mem lat htc)) t0

theorem parallel_batch_fan_in_witness :
    (gatherRound (fun _ _ _ => ⟨some "success", some "ok", some []⟩)
      (fun tc => if tc.id == "i1" then 7 else 3) 2
      [⟨"i1", "call_budget_agent", ⟨[], "t1", ""⟩⟩,
       ⟨"i2", "call_transport_agent", ⟨[], "t2", ""⟩⟩]).1 =
    2 + listMax ([⟨"i1", "call_budget_agent", ⟨[], "t1", ""⟩⟩,
      (⟨"i2", "call_transport_agent", ⟨[], "t2", ""⟩⟩ : ToolCall)].map
      (fun tc => if tc.id == "i1" then 7 else 3)) :=
  (parallel_batch_fan_in (fun _ _ _ => ⟨some "success", some "ok", some []⟩)
    (fun tc => if tc.id == "i1" then 7 else 3) 2
    [⟨"i1", "call_budget_agent", ⟨[], "t1", ""⟩⟩,
     ⟨"i2", "call_transport_agent", ⟨[], "t2", ""⟩⟩] (by decide)).2.2.1.1

/-! ### A second create_plan replaces the recorded plan (C10) -/

/-- C10: processing a batch of `create_plan` requests replaces the entire
recorded plan with the step list of the last request — keys recorded earlier,
whether by a previous `create_plan` or appended via `plan_update`
improvisation, are discarded — so a later batch that dispatches such a
discarded key (without redeclaring a plan) treats it as unplanned and emits
a fresh `plan_update` for it. -/
theorem create_plan_replaces_plan (env : SpecialistEnv)
    (planned completed : List String) (content : Option String)
    (tcs : List ToolCall) (hp : planCalls tcs ≠ [])
    (hnoac : agentCalls tcs = [])
    (k : String) (hk : k ∈ planned)
    (hdrop : k ∉ ((planCalls tcs).getLast hp).args.steps.map PlanStep.agent) :
    (∃ evs msgs, stepTurn env planned completed (.message content tcs) =
      .next evs msgs (((planCalls tcs).getLast hp).args.steps.map PlanStep.agent)
        completed) ∧
    (∀ content2 tcs2 tc2, planCalls tcs2 = [] → tc2 ∈ agentCalls tcs2 →
      agentKey tc2 = k →
      ∃ evs2 msgs2 planned2 completed2,
        stepTurn env (((planCalls tcs).getLast hp).args.steps.map PlanStep.agent)
          completed (.message content2 tcs2) =
          .next evs2 msgs2 planned2 completed2 ∧
        ∃ ag r, Event.plan_update ag k r ∈ evs2) := by
  have _ := hk
  cases tcs with
  | nil => simp [planCalls] at hp
  | cons t ts =>
      have hacs : (agentCalls (t :: ts)).isEmpty = true := by rw [hnoac]; rfl
      constructor
      · have heq := stepTurn_eq_next_of_empty env planned completed content t ts hacs
        rw [processPlanCalls_planned_of_ne_nil _ _ hp] at heq
        exact ⟨_, _, heq⟩
      · intro content2 tcs2 tc2 hplan2 hmem2 hk2
        cases tcs2 with
        | nil => simp [agentCalls] at hmem2
        | cons u us =>
            have hacs2 : (agentCalls (u :: us)).isEmpty = false := by
              cases h : agentCalls (u :: us) with
              | nil => rw [h] at hmem2; cases hmem2
              | cons a as => rfl
            refine ⟨_, _, _, _,
              stepTurn_eq_next_of_calls env _ completed content2 u us hacs2, ?_⟩
            have hkin : k ∈ (agentCalls (u :: us)).map agentKey :=
              List.mem_map.mpr ⟨tc2, hmem2, hk2⟩
            have hP : (processPlanCalls
                (((planCalls (t :: ts)).getLast hp).args.steps.map PlanStep.agent)
                (planCalls (u :: us))).1 =
                ((planCalls (t :: ts)).getLast hp).args.steps.map PlanStep.agent := by
              rw [hplan2]
              rfl
            obtain ⟨ag, r, hm⟩ := processPlanUpdates_events_exists
              (agentCalls (u :: us))
              (processPlanCalls
                (((planCalls (t :: ts)).getLast hp).args.steps.map PlanStep.agent)
                (planCalls (u :: us))).1 k hkin (by rw [hP]; exact hdrop)
            refine ⟨ag, r, ?_⟩
            simp only [List.append_assoc, List.mem_append]
            exact Or.inr (Or.inl hm)

theorem create_plan_replaces_plan_witness :
    (∃ evs msgs, stepTurn (fun _ _ _ => ⟨some "success", some "ok", some []⟩)
      ["weather", "budget"] [] (.message none
        [⟨"p2", "create_plan", ⟨[⟨"packing", "pack"⟩], "", ""⟩⟩]) =
      .next evs msgs
        (((planCalls [⟨"p2", "create_plan",
            (⟨[⟨"packing", "pack"⟩], "", ""⟩ : ToolArgs)⟩]).getLast
          (by decide)).args.steps.map PlanStep.agent) []) ∧
    (∀ content2 tcs2 tc2, planCalls tcs2 = [] → tc2 ∈ agentCalls tcs2 →
      agentKey tc2 = "budget" →
      ∃ evs2 msgs2 planned2 completed2,
        stepTurn (fun _ _ _ => ⟨some "success", some "ok", some []⟩)
          (((planCalls [⟨"p2", "create_plan",
              (⟨[⟨"packing", "pack"⟩], "", ""⟩ : ToolArgs)⟩]).getLast
            (by decide)).args.steps.map PlanStep.agent)
          [] (.message content2 tcs2) =
          .next evs2 msgs2 planned2 completed2 ∧
        ∃ ag r, Event.plan_update ag "budget" r ∈ evs2) :=
  create_plan_replaces_plan (fun _ _ _ => ⟨some "success", some "ok", some []⟩)
    ["weather", "budget"] [] none
    [⟨"p2", "create_plan", ⟨[⟨"packing", "pack"⟩], "", ""⟩⟩]
    (by decide) (by decide) "budget" (by decide) (by decide)

end TripPlanner
